import Mathlib

/-!
# Verification of the clawdbot-localmemory client

Shallow embedding of `LocalMemoryClient` (the memory engine of the
clawdbot-localmemory plugin): embedding generation with bounded retry,
lazy memoized initialization, vector CRUD and similarity search over a
lazily created table, and the JSON profile merge. Machine-level details
(actual network calls, LanceDB internals, timestamps) are abstracted into
explicit parameters; the control flow and data transformations mirror the
source line by line.
-/

namespace LocalMemory

/-- Embedding vectors, modelled as lists of integers. -/
abbrev Vec := List Int

/-- Constant `MAX_CONTENT_LENGTH` from the source (≈50KB max per memory). -/
def MAX_CONTENT_LENGTH : Nat := 50000

/-- Constant `EMBED_RETRY_COUNT` from the source. -/
def EMBED_RETRY_COUNT : Nat := 3

/-- Constant `EMBED_RETRY_DELAY_MS` from the source. -/
def EMBED_RETRY_DELAY_MS : Nat := 1000

/-! ## Embedding with retry (`LocalMemoryClient.embed`) -/

/-- Outcome of one run of the retry loop in `embed`: the value returned or
the error finally thrown, the number of calls issued to the provider, and
the list of delays (in ms) waited between consecutive attempts. -/
structure EmbedRun where
  result : Except String Vec
  attempts : Nat
  delays : List Nat
  deriving Repr

/-- The body of the `for (let attempt = 0; attempt < EMBED_RETRY_COUNT; ...)`
loop in `embed`. `call n` is the outcome of the provider call on attempt `n`
(0-indexed); `fuel` is the number of loop iterations left, i.e.
`EMBED_RETRY_COUNT - attempt`. On failure the error is remembered and, if
another iteration remains, a delay of `EMBED_RETRY_DELAY_MS * (attempt + 1)`
is waited; when the loop ends the last error is thrown. -/
def embedGo (call : Nat → Except String Vec) :
    Nat → Option String → Nat → EmbedRun
  | 0, lastError, _ =>
    { result := .error (lastError.getD "Embedding failed after retries"),
      attempts := 0, delays := [] }
  | fuel + 1, _, attempt =>
    match call attempt with
    | .ok v => { result := .ok v, attempts := 1, delays := [] }
    | .error e =>
      let ds := if attempt < EMBED_RETRY_COUNT - 1 then
        [EMBED_RETRY_DELAY_MS * (attempt + 1)] else []
      let r := embedGo call fuel (some e) (attempt + 1)
      { result := r.result, attempts := r.attempts + 1, delays := ds ++ r.delays }

/-- Model of `LocalMemoryClient.embed`, parametrized by the per-attempt outcome of
the remote provider call. -/
def embed (call : Nat → Except String Vec) : EmbedRun :=
  embedGo call EMBED_RETRY_COUNT none 0

/-! ## Lazy memoized initialization (`ensureInitialized` / `doInit`) -/

/-- The initialization-relevant state of a client: the cached in-flight
promise (identified by the number of the `doInit` run that produced it) and
a counter of how many times `doInit` has actually been started. -/
structure InitState where
  initPromise : Option Nat
  doInitRuns : Nat
  deriving Repr, DecidableEq

/-- Method `ensureInitialized`: if no promise is cached, start `doInit` (a fresh
run) and cache its promise; in every case return the cached promise. The
check-and-assign is synchronous in the source (no `await` between the test
of `initPromise` and its assignment), so under the cooperative scheduler it
executes atomically; each call is therefore one atomic step here. -/
def ensureInitialized (s : InitState) : Nat × InitState :=
  match s.initPromise with
  | some p => (p, s)
  | none =>
    let runId := s.doInitRuns + 1
    (runId, { initPromise := some runId, doInitRuns := s.doInitRuns + 1 })

/-- Runs `n` callers invoking `ensureInitialized` in sequence (any interleaving
of `n` concurrent callers reduces to this, each call being atomic);
returns the promise each caller awaits and the final state. -/
def ensureMany : Nat → InitState → List Nat × InitState
  | 0, s => ([], s)
  | n + 1, s =>
    let r := ensureInitialized s
    let rest := ensureMany n r.2
    (r.1 :: rest.1, rest.2)

/-- Once a promise is cached, further callers just read it. -/
theorem ensureMany_cached (n : Nat) (p runs : Nat) :
    ensureMany n ⟨some p, runs⟩ = (List.replicate n p, ⟨some p, runs⟩) := by
  induction n with
  | zero => rfl
  | succ n ih => simp [ensureMany, ensureInitialized, ih, List.replicate_succ]

/-- C9: when `n ≥ 1` callers invoke the initialization path of a fresh
client, `doInit` is started exactly once, and every caller receives (and
awaits) the same cached promise — the one of that single run. -/
theorem init_runs_once (n : Nat) (h : 1 ≤ n) :
    (ensureMany n ⟨none, 0⟩).1 = List.replicate n 1
    ∧ (ensureMany n ⟨none, 0⟩).2 = ⟨some 1, 1⟩ := by
  obtain ⟨m, rfl⟩ : ∃ m, n = m + 1 := ⟨n - 1, (Nat.succ_pred_eq_of_pos h).symm⟩
  simp [ensureMany, ensureInitialized, ensureMany_cached, List.replicate_succ]

/-- Witness for C9 at `n = 3`. -/
theorem init_runs_once_witness :
    (ensureMany 3 ⟨none, 0⟩).1 = List.replicate 3 1
    ∧ (ensureMany 3 ⟨none, 0⟩).2 = ⟨some 1, 1⟩ :=
  init_runs_once 3 (by decide)

/-! ## Client state and table operations -/

/-- Record type `MemoryRecord` from the source. `metadata` is kept in its serialized
(JSON-string) form, exactly as stored. -/
structure MemoryRecord where
  id : String
  content : String
  vector : Vec
  metadata : String
  createdAt : String
  updatedAt : String
  deriving Repr, DecidableEq

/-- The lazily created `memories` table: the vector dimension it was
created with, and its rows. -/
structure TableState where
  dim : Nat
  rows : List MemoryRecord
  deriving Repr, DecidableEq

/-- The store-relevant state of an initialized client: `table = none`
models `this.table === null` (no table created yet, or dropped). -/
structure ClientState where
  table : Option TableState
  deriving Repr, DecidableEq

/-- Externally observable calls an operation makes, in order. -/
inductive Effect where
  | embedCall (text : String)
  | createTable (dim : Nat)
  | deleteWhere (filter : String)
  | insertRow (id : String)
  | vectorSearch
  | countRows
  | dropTable
  deriving Repr, DecidableEq

/-- The deterministic environment of one operation: the embedding provider
(assumed to succeed; retry exhaustion is modelled separately by `embed`),
the clock and the randomness consumed by `generateId`. -/
structure Env where
  embedText : String → Vec
  nowMs : Nat
  rand : String
  now : String

/-- Function `generateId` from the source: a time-plus-random token. -/
def generateId (nowMs : Nat) (rand : String) : String :=
  "mem_" ++ toString nowMs ++ "_" ++ rand

/-- The fresh id `generateId()` would produce in environment `e`. -/
def Env.freshId (e : Env) : String := generateId e.nowMs e.rand

/-- JS `String.prototype.trim`: strip whitespace from both ends. -/
def trimChars (l : List Char) : List Char :=
  ((l.dropWhile Char.isWhitespace).reverse.dropWhile Char.isWhitespace).reverse

/-- Models `content.trim()` on the model's strings. -/
def jsTrim (s : String) : String := String.mk (trimChars s.data)

/-- JS `text.length` (character count). -/
def strLen (s : String) : Nat := s.data.length

/-- JS `text.slice(0, n)` (first `n` characters). -/
def strTake (s : String) (n : Nat) : String := String.mk (s.data.take n)

/-- Function `limitText` from the source: truncate to `max` characters and append
an ellipsis when the text is longer than `max`. -/
def limitText (text : String) (max : Nat) : String :=
  if strLen text > max then strTake text max ++ "…" else text

/-- Backslash character (used by `sanitizeId`). -/
def bs : Char := Char.ofNat 92

/-- Double-quote character. -/
def dq : Char := Char.ofNat 34

/-- Single-quote character. -/
def sq : Char := Char.ofNat 39

/-- First replacement of `sanitizeId`: put a backslash before every double quote. -/
def escDq : List Char → List Char
  | [] => []
  | c :: cs => if c = dq then bs :: dq :: escDq cs else c :: escDq cs

/-- Second replacement of `sanitizeId`: put a backslash before every single quote. -/
def escSq : List Char → List Char
  | [] => []
  | c :: cs => if c = sq then bs :: sq :: escSq cs else c :: escSq cs

/-- Function `sanitizeId` from the source: escape double quotes, then single
quotes, to neutralize them in LanceDB filter expressions. -/
def sanitizeId (s : String) : String := String.mk (escSq (escDq s.data))

/-- The filter expression `id = "${sanitizeId id}"` interpolated by
`deleteMemory`, `ensureTable` and the `customId` branch of `addMemory`. -/
def deleteFilterExpr (id : String) : String :=
  "id = \"" ++ sanitizeId id ++ "\""

/-- The placeholder record `ensureTable` seeds a fresh table with. -/
def initRecord (vectorDim : Nat) (now : String) : MemoryRecord :=
  { id := "__init__", content := "", vector := List.replicate vectorDim 0,
    metadata := "\x7b\x7d", createdAt := now, updatedAt := now }

/-- Method `ensureTable`: return the cached table if one exists; otherwise create
the table at the given vector dimension seeded with the placeholder record
and immediately delete the placeholder by id. -/
def ensureTable (st : ClientState) (vectorDim : Nat) (now : String) :
    TableState × ClientState × List Effect :=
  match st.table with
  | some t => (t, st, [])
  | none =>
    let created : TableState :=
      { dim := vectorDim, rows := [initRecord vectorDim now] }
    let cleared : TableState :=
      { created with rows := created.rows.filter (fun r => r.id != "__init__") }
    (cleared, { table := some cleared },
     [.createTable vectorDim, .deleteWhere (deleteFilterExpr "__init__")])

/-- Validation errors raised by `addMemory` before any external call. -/
inductive MemError where
  | emptyContent
  | tooLarge (len : Nat)
  deriving Repr, DecidableEq

/-- Method `addMemory(content, metadata?, customId?)`: trim, validate, embed,
ensure the table at the embedding's dimension, delete any record sharing
`customId` when one is given, then insert the new record and return its
id. The result triple is (returned id or validation error, state after,
effect trace). -/
def addMemory (env : Env) (st : ClientState) (content : String)
    (metadata : String) (customId : Option String) :
    Except MemError String × ClientState × List Effect :=
  let cleaned := jsTrim content
  if cleaned = "" then (.error .emptyContent, st, [])
  else if strLen cleaned > MAX_CONTENT_LENGTH then
    (.error (.tooLarge (strLen cleaned)), st, [])
  else
    let vector := env.embedText cleaned
    let et := ensureTable st vector.length env.now
    let table := et.1
    let id := customId.getD env.freshId
    let record : MemoryRecord :=
      { id := id, content := cleaned, vector := vector, metadata := metadata,
        createdAt := env.now, updatedAt := env.now }
    let afterDelete : TableState × List Effect :=
      match customId with
      | some cid =>
        ({ table with rows := table.rows.filter (fun r => r.id != cid) },
         [Effect.deleteWhere (deleteFilterExpr cid)])
      | none => (table, [])
    let final : TableState :=
      { afterDelete.1 with rows := afterDelete.1.rows ++ [record] }
    (.ok id, { table := some final },
     Effect.embedCall cleaned :: (et.2.2 ++ afterDelete.2 ++ [Effect.insertRow id]))

/-- Squared L2 distance, the store's ranking metric for `vectorSearch`. -/
def dist2 (v w : Vec) : Int :=
  (List.zipWith (fun a b => (a - b) * (a - b)) v w).foldl (· + ·) 0

/-- Result type `SearchResult` from the source (metadata decoding omitted — no claim
touches the decoded metadata). `memory` duplicates `content`, and
`similarity` is `1 - distance`. -/
structure SearchResult where
  id : String
  content : String
  memory : String
  similarity : Int
  deriving Repr, DecidableEq

/-- The store's nearest-neighbour ordering: rows sorted by ascending
distance to the query vector. -/
def rankRows (qv : Vec) (rows : List MemoryRecord) : List MemoryRecord :=
  List.insertionSort (fun a b => dist2 qv a.vector ≤ dist2 qv b.vector) rows

/-- Method `search(query, limit)`: with no table, return the empty list without
contacting the provider or the store; otherwise embed the query and map
the `limit` nearest rows to results. -/
def search (env : Env) (st : ClientState) (query : String) (limit : Nat) :
    List SearchResult × ClientState × List Effect :=
  match st.table with
  | none => ([], st, [])
  | some t =>
    let qv := env.embedText query
    let ranked := (rankRows qv t.rows).take limit
    let results := ranked.map (fun r =>
      { id := r.id, content := r.content, memory := r.content,
        similarity := 1 - dist2 qv r.vector : SearchResult })
    (results, st, [Effect.embedCall query, Effect.vectorSearch])

/-- Method `deleteMemory(id)`: no-op without a table; otherwise delete by the
sanitized id-equality filter (exact id match at the store). -/
def deleteMemory (st : ClientState) (id : String) :
    ClientState × List Effect :=
  match st.table with
  | none => (st, [])
  | some t =>
    ({ table := some { t with rows := t.rows.filter (fun r => r.id != id) } },
     [Effect.deleteWhere (deleteFilterExpr id)])

/-- Method `forgetByQuery(query)`: search with limit 5; report failure when
nothing matches, otherwise delete the top hit and report a truncated
preview of it (`target.content || target.memory || ""` under JS
truthiness). -/
def forgetByQuery (env : Env) (st : ClientState) (query : String) :
    (Bool × String) × ClientState × List Effect :=
  let s := search env st query 5
  match s.1 with
  | [] => ((false, "No matching memory found to forget."), s.2.1, s.2.2)
  | target :: _ =>
    let d := deleteMemory s.2.1 target.id
    let preview := limitText
      (if target.content ≠ "" then target.content
       else if target.memory ≠ "" then target.memory else "") 100
    ((true, "Forgot: \"" ++ preview ++ "\""), d.1, s.2.2 ++ d.2)

/-- Method `wipeAllMemories()`: with no table, report zero deletions and touch
nothing; otherwise count the rows, drop the table and return the count. -/
def wipeAllMemories (st : ClientState) : Nat × ClientState × List Effect :=
  match st.table with
  | none => (0, st, [])
  | some t =>
    (t.rows.length, { table := none }, [Effect.countRows, Effect.dropTable])

/-! ## C2: retry behaviour of `embed` -/

/-- C2: for every provider behaviour, `embed` issues at most 3 calls; if
the first two attempts fail and the third succeeds, the successful vector
is returned after delays of `1000·1` and `1000·2` ms between consecutive
attempts; if one attempt fails and the second succeeds, the vector is
returned after a single `1000·1` ms delay; and if all three attempts fail,
the error of the last attempt is thrown unchanged. -/
theorem embed_retry_spec (call : Nat → Except String Vec) :
    (embed call).attempts ≤ 3
    ∧ (∀ v, call 0 = .ok v →
        embed call = { result := .ok v, attempts := 1, delays := [] })
    ∧ (∀ e0 v, call 0 = .error e0 → call 1 = .ok v →
        embed call = { result := .ok v, attempts := 2, delays := [1000] })
    ∧ (∀ e0 e1 v, call 0 = .error e0 → call 1 = .error e1 → call 2 = .ok v →
        embed call = { result := .ok v, attempts := 3, delays := [1000, 2000] })
    ∧ (∀ e0 e1 e2, call 0 = .error e0 → call 1 = .error e1 → call 2 = .error e2 →
        embed call = { result := .error e2, attempts := 3, delays := [1000, 2000] }) := by
  refine ⟨?_, ?_, ?_, ?_, ?_⟩
  · unfold embed EMBED_RETRY_COUNT
    rcases h0 : call 0 with e0 | v0 <;>
      rcases h1 : call 1 with e1 | v1 <;>
        rcases h2 : call 2 with e2 | v2 <;>
          simp [embedGo, h0, h1, h2]
  · intro v h0
    simp [embed, EMBED_RETRY_COUNT, embedGo, h0]
  · intro e0 v h0 h1
    simp [embed, EMBED_RETRY_COUNT, EMBED_RETRY_DELAY_MS, embedGo, h0, h1]
  · intro e0 e1 v h0 h1 h2
    simp [embed, EMBED_RETRY_COUNT, EMBED_RETRY_DELAY_MS, embedGo, h0, h1, h2]
  · intro e0 e1 e2 h0 h1 h2
    simp [embed, EMBED_RETRY_COUNT, EMBED_RETRY_DELAY_MS, embedGo, h0, h1, h2]

/-- A concrete provider that fails on attempts 0 and 1 and succeeds on 2. -/
def callTwoFailures : Nat → Except String Vec :=
  fun n => if n < 2 then .error ("boom" ++ toString n) else .ok [3, 1, 4]

/-- Witness for C2 on a provider failing twice then succeeding. -/
theorem embed_retry_spec_witness :
    embed callTwoFailures
      = { result := .ok [3, 1, 4], attempts := 3, delays := [1000, 2000] } :=
  (embed_retry_spec callTwoFailures).2.2.2.1 "boom0" "boom1" [3, 1, 4] rfl rfl rfl

/-! ## C4: `search` on a store with no table -/

/-- C4: on a client whose store has no table, `search` returns the empty
result list for every query and limit, leaves the state unchanged and
makes no external call at all (empty effect trace — in particular no
embedding call and no store access, so nothing can raise). -/
theorem search_no_table (env : Env) (st : ClientState) (query : String)
    (limit : Nat) (h : st.table = none) :
    search env st query limit = ([], st, []) := by
  simp [search, h]

/-- A concrete environment used by the closed witnesses. -/
def envW : Env :=
  { embedText := fun _ => [1, 0], nowMs := 7, rand := "abc", now := "t0" }

/-- Witness for C4 on a fresh (table-less) client. -/
theorem search_no_table_witness :
    search envW ⟨none⟩ "anything" 5 = ([], ⟨none⟩, []) :=
  search_no_table envW ⟨none⟩ "anything" 5 rfl

/-! ## C10: `wipeAllMemories` on a store with no table -/

/-- C10: with no table, `wipeAllMemories` reports zero deletions, leaves
the state unchanged and performs no store call (no row count, no drop). -/
theorem wipe_no_table (st : ClientState) (h : st.table = none) :
    wipeAllMemories st = (0, st, []) := by
  simp [wipeAllMemories, h]

/-- Witness for C10. -/
theorem wipe_no_table_witness : wipeAllMemories ⟨none⟩ = (0, ⟨none⟩, []) :=
  wipe_no_table ⟨none⟩ rfl

/-! ## C7: validation in `addMemory` -/

/-- C7: `addMemory` fails exactly when the trimmed content is empty or
longer than `MAX_CONTENT_LENGTH`; the failure is the corresponding
validation error, the state is untouched and the effect trace is empty —
in particular no embedding call happens before (or after) the error. The
embedding provider itself is modelled as succeeding, so validation is the
only error source, making the "exactly when" direction meaningful. -/
theorem addMemory_validation (env : Env) (st : ClientState)
    (content metadata : String) (customId : Option String) :
    (addMemory env st content metadata customId
        = (.error .emptyContent, st, []) ↔ jsTrim content = "")
    ∧ (addMemory env st content metadata customId
        = (.error (.tooLarge (strLen (jsTrim content))), st, [])
          ↔ jsTrim content ≠ "" ∧ strLen (jsTrim content) > MAX_CONTENT_LENGTH)
    ∧ ((∃ e, (addMemory env st content metadata customId).1 = .error e)
        ↔ jsTrim content = "" ∨ strLen (jsTrim content) > MAX_CONTENT_LENGTH) := by
  by_cases h0 : jsTrim content = ""
  · refine ⟨by simp [addMemory, h0], ?_, ?_⟩
    · simp [addMemory, h0]
    · simp [addMemory, h0]
  · by_cases h1 : strLen (jsTrim content) > MAX_CONTENT_LENGTH
    · refine ⟨?_, ?_, ?_⟩
      · simp [addMemory, h0, h1]
      · simp [addMemory, h0, h1]
      · simp [addMemory, h0, h1]
    · refine ⟨?_, ?_, ?_⟩
      · simp [addMemory, h0, h1]
      · simp [addMemory, h0, h1]
      · simp [addMemory, h0, h1]

/-- Witness for C7: whitespace-only content is rejected with the
empty-content validation error, state untouched, no effects. -/
theorem addMemory_validation_witness :
    addMemory envW ⟨none⟩ "   " "\x7b\x7d" none
      = (.error .emptyContent, ⟨none⟩, []) :=
  (addMemory_validation envW ⟨none⟩ "   " "\x7b\x7d" none).1.mpr (by decide)

/-! ## C3: upsert semantics of `addMemory` -/

/-- Rows currently stored by a client (empty when no table exists). -/
def rowsOf (st : ClientState) : List MemoryRecord :=
  match st.table with
  | some t => t.rows
  | none => []

/-- The dimension the table has after `ensureTable st vdim`: the existing
table's dimension, or `vdim` when the table is created by this call. -/
def tableDim (st : ClientState) (vdim : Nat) : Nat :=
  match st.table with
  | some t => t.dim
  | none => vdim

/-- Rows surviving the delete-by-id filter contain no row with that id. -/
theorem countP_filter_ne (l : List MemoryRecord) (cid : String) :
    (l.filter (fun x => x.id != cid)).countP (fun x => x.id == cid) = 0 := by
  induction l with
  | nil => rfl
  | cons a l ih =>
    by_cases h : a.id = cid <;>
      simp [List.filter_cons, h, List.countP_cons, ih]

/-- Deleting by id twice is the same as deleting once. -/
theorem filter_ne_idem (l : List MemoryRecord) (cid : String) :
    (l.filter (fun x => x.id != cid)).filter (fun x => x.id != cid)
      = l.filter (fun x => x.id != cid) := by
  induction l with
  | nil => rfl
  | cons a l ih =>
    by_cases h : a.id = cid <;> simp [List.filter_cons, h, ih]

/-- C3: for valid content, `addMemory` with a `customId` returns that id,
replaces (delete-then-insert) any rows sharing it — leaving exactly one
row with that id — and repeating the identical call reproduces the same
state (idempotent upsert); without a `customId` it appends a row under the
freshly generated id and returns that id. -/
theorem addMemory_upsert (env : Env) (st : ClientState)
    (content metadata cid : String)
    (h0 : jsTrim content ≠ "")
    (h1 : strLen (jsTrim content) ≤ MAX_CONTENT_LENGTH) :
    (addMemory env st content metadata (some cid)).1 = .ok cid
    ∧ (addMemory env st content metadata (some cid)).2.1.table
        = some ⟨tableDim st (env.embedText (jsTrim content)).length,
                (rowsOf st).filter (fun x => x.id != cid)
                  ++ [⟨cid, jsTrim content, env.embedText (jsTrim content),
                       metadata, env.now, env.now⟩]⟩
    ∧ (rowsOf (addMemory env st content metadata (some cid)).2.1).countP
        (fun x => x.id == cid) = 1
    ∧ (addMemory env (addMemory env st content metadata (some cid)).2.1
          content metadata (some cid)).2.1
        = (addMemory env st content metadata (some cid)).2.1
    ∧ (addMemory env st content metadata none).1 = .ok env.freshId
    ∧ (addMemory env st content metadata none).2.1.table
        = some ⟨tableDim st (env.embedText (jsTrim content)).length,
                rowsOf st ++ [⟨env.freshId, jsTrim content,
                  env.embedText (jsTrim content), metadata, env.now, env.now⟩]⟩ := by
  have h1' : ¬ strLen (jsTrim content) > MAX_CONTENT_LENGTH := Nat.not_lt.mpr h1
  cases hst : st.table with
  | none =>
    refine ⟨?_, ?_, ?_, ?_, ?_, ?_⟩ <;>
      simp [addMemory, h0, h1', ensureTable, hst, rowsOf, tableDim,
        initRecord, List.filter_cons, List.filter_append,
        List.countP_append, List.countP_cons, countP_filter_ne, filter_ne_idem]
  | some t =>
    refine ⟨?_, ?_, ?_, ?_, ?_, ?_⟩ <;>
      simp [addMemory, h0, h1', ensureTable, hst, rowsOf, tableDim,
        initRecord, List.filter_cons, List.filter_append,
        List.countP_append, List.countP_cons, countP_filter_ne, filter_ne_idem]

/-- Witness for C3: upserting under id `"k"` into a store already holding
an older record with id `"k"` and an unrelated record keeps the unrelated
record, leaves exactly one `"k"` row, and the fresh-id branch returns the
generated id. -/
theorem addMemory_upsert_witness :
    (addMemory envW
        ⟨some ⟨2, [⟨"k", "old", [0, 0], "\x7b\x7d", "t", "t"⟩,
                   ⟨"j", "other", [2, 2], "\x7b\x7d", "t", "t"⟩]⟩⟩
        " hello " "\x7b\x7d" (some "k")).1 = .ok "k"
    ∧ (addMemory envW
        ⟨some ⟨2, [⟨"k", "old", [0, 0], "\x7b\x7d", "t", "t"⟩,
                   ⟨"j", "other", [2, 2], "\x7b\x7d", "t", "t"⟩]⟩⟩
        " hello " "\x7b\x7d" (some "k")).2.1.table
        = some ⟨2, [⟨"j", "other", [2, 2], "\x7b\x7d", "t", "t"⟩,
                    ⟨"k", "hello", [1, 0], "\x7b\x7d", "t0", "t0"⟩]⟩ := by
  have h := addMemory_upsert envW
    ⟨some ⟨2, [⟨"k", "old", [0, 0], "\x7b\x7d", "t", "t"⟩,
               ⟨"j", "other", [2, 2], "\x7b\x7d", "t", "t"⟩]⟩⟩
    " hello " "\x7b\x7d" "k" (by decide) (by decide)
  exact ⟨h.1, by simpa [rowsOf, tableDim, envW] using h.2.1⟩

/-! ## C6: `wipeAllMemories` on a store with a table -/

/-- C6: with an existing table, `wipeAllMemories` returns the row count
taken just before dropping the table and resets the table binding; a
search immediately afterwards returns the empty list, and a subsequent
`addMemory` (with valid content) succeeds, re-creating the table at the
new embedding vector's dimension with the new record as its only row. -/
theorem wipe_then_rebind (env : Env) (st : ClientState) (t : TableState)
    (h : st.table = some t) (content metadata : String)
    (h0 : jsTrim content ≠ "")
    (h1 : strLen (jsTrim content) ≤ MAX_CONTENT_LENGTH) :
    wipeAllMemories st
      = (t.rows.length, ⟨none⟩, [.countRows, .dropTable])
    ∧ (∀ q lim, search env (wipeAllMemories st).2.1 q lim = ([], ⟨none⟩, []))
    ∧ (addMemory env (wipeAllMemories st).2.1 content metadata none).1
        = .ok env.freshId
    ∧ (addMemory env (wipeAllMemories st).2.1 content metadata none).2.1.table
        = some ⟨(env.embedText (jsTrim content)).length,
                [⟨env.freshId, jsTrim content, env.embedText (jsTrim content),
                  metadata, env.now, env.now⟩]⟩ := by
  have h1' : ¬ strLen (jsTrim content) > MAX_CONTENT_LENGTH := Nat.not_lt.mpr h1
  refine ⟨by simp [wipeAllMemories, h], ?_, ?_, ?_⟩
  · intro q lim
    simp [wipeAllMemories, h, search]
  · simp [wipeAllMemories, h, addMemory, h0, h1', ensureTable, initRecord]
  · simp [wipeAllMemories, h, addMemory, h0, h1', ensureTable, initRecord,
      List.filter_cons]

/-- First sample row for the closed witnesses. -/
def rowA : MemoryRecord := ⟨"a", "contentA", [1, 0], "\x7b\x7d", "t", "t"⟩

/-- Second sample row for the closed witnesses. -/
def rowB : MemoryRecord := ⟨"b", "contentB", [5, 5], "\x7b\x7d", "t", "t"⟩

/-- A sample client state holding two rows. -/
def stW : ClientState := ⟨some ⟨2, [rowA, rowB]⟩⟩

/-- Witness for C6 on a two-row store. -/
theorem wipe_then_rebind_witness :
    wipeAllMemories stW = (2, ⟨none⟩, [.countRows, .dropTable])
    ∧ search envW (wipeAllMemories stW).2.1 "x" 5 = ([], ⟨none⟩, [])
    ∧ (addMemory envW (wipeAllMemories stW).2.1 " hi " "\x7b\x7d" none).1
        = .ok (generateId 7 "abc")
    ∧ (addMemory envW (wipeAllMemories stW).2.1 " hi " "\x7b\x7d" none).2.1.table
        = some ⟨2, [⟨generateId 7 "abc", "hi", [1, 0], "\x7b\x7d", "t0", "t0"⟩]⟩ := by
  have h := wipe_then_rebind envW stW ⟨2, [rowA, rowB]⟩ rfl " hi " "\x7b\x7d"
    (by decide) (by decide)
  refine ⟨h.1, h.2.1 "x" 5, h.2.2.1, h.2.2.2.trans ?_⟩
  simp [envW, Env.freshId]
  decide

/-! ## C1: `forgetByQuery` -/

/-- Every search result duplicates its record's content in `memory`. -/
theorem search_memory_eq_content (env : Env) (st : ClientState)
    (q : String) (lim : Nat) :
    ∀ r ∈ (search env st q lim).1, r.memory = r.content := by
  cases hst : st.table with
  | none => simp [search, hst]
  | some t =>
    intro r hr
    simp only [search, hst] at hr
    simp only [List.mem_map] at hr
    obtain ⟨a, _, rfl⟩ := hr
    rfl

/-- Every search result's id is the id of some stored row. -/
theorem search_id_mem_rows (env : Env) (st : ClientState) (t : TableState)
    (q : String) (lim : Nat) (hst : st.table = some t) :
    ∀ r ∈ (search env st q lim).1, ∃ a ∈ t.rows, a.id = r.id := by
  intro r hr
  simp only [search, hst, List.mem_map] at hr
  obtain ⟨a, ha, rfl⟩ := hr
  have ha' : a ∈ rankRows (env.embedText q) t.rows := List.mem_of_mem_take ha
  exact ⟨a, (List.mem_insertionSort _).mp ha', rfl⟩

/-- Deleting by an id that occurs in a duplicate-free row list removes
exactly one row. -/
theorem length_filter_ne_of_mem (l : List MemoryRecord) (i : String)
    (hnd : (l.map (fun r => r.id)).Nodup) (hmem : ∃ r ∈ l, r.id = i) :
    (l.filter (fun r => r.id != i)).length + 1 = l.length := by
  induction l with
  | nil => simp at hmem
  | cons a l ih =>
    simp only [List.map_cons, List.nodup_cons] at hnd
    obtain ⟨r, hr, hri⟩ := hmem
    rcases List.mem_cons.mp hr with rfl | hr'
    · have hall : ∀ x ∈ l, (x.id != i) = true := by
        intro x hx
        have : x.id ≠ i := by
          intro hxi
          exact hnd.1 (hri ▸ hxi ▸ List.mem_map_of_mem (fun r => r.id) hx)
        simpa using this
      simp [List.filter_cons, hri, List.filter_eq_self.mpr hall]
    · have hai : a.id ≠ i := by
        intro hae
        exact hnd.1 (hae ▸ hri ▸ List.mem_map_of_mem (fun r => r.id) hr')
      have := ih hnd.2 ⟨r, hr', hri⟩
      have hkeep : (a.id != i) = true := by simpa using hai
      simp only [List.filter_cons, hkeep, if_true, List.length_cons]
      omega

/-- C1: `forgetByQuery` searches with limit 5. With no hit it reports
`success = false` with the exact "nothing found" message and leaves the
store untouched. With hits it deletes by the top result's id (so, for a
store with duplicate-free ids, exactly the single top-ranked record fails
to survive), reports `success = true`, and the previewed content is the
original when it is at most 100 characters and the 100-character
truncation plus an ellipsis when longer. -/
theorem forgetByQuery_spec (env : Env) (st : ClientState) (query : String) :
    ((search env st query 5).1 = [] →
        forgetByQuery env st query
          = ((false, "No matching memory found to forget."), st, (search env st query 5).2.2))
    ∧ (∀ target rest t,
        (search env st query 5).1 = target :: rest → st.table = some t →
        (forgetByQuery env st query).1
            = (true, "Forgot: \"" ++ limitText target.content 100 ++ "\"")
        ∧ (forgetByQuery env st query).2.1
            = ⟨some ⟨t.dim, t.rows.filter (fun r => r.id != target.id)⟩⟩
        ∧ (strLen target.content > 100 →
            limitText target.content 100 = strTake target.content 100 ++ "…")
        ∧ (strLen target.content ≤ 100 →
            limitText target.content 100 = target.content)
        ∧ ((t.rows.map (fun r => r.id)).Nodup →
            (t.rows.filter (fun r => r.id != target.id)).length + 1
              = t.rows.length)) := by
  constructor
  · intro h
    have hstate : (search env st query 5).2.1 = st := by
      cases hst : st.table <;> simp [search, hst]
    simp only [forgetByQuery, h]
    rw [hstate]
  · intro target rest t hres hst
    have hstate : (search env st query 5).2.1 = st := by simp [search, hst]
    have hmem : target ∈ (search env st query 5).1 := by
      rw [hres]; exact List.mem_cons_self _ _
    have hmc := search_memory_eq_content env st query 5 target hmem
    have hchain :
        (if target.content ≠ "" then target.content
         else if target.memory ≠ "" then target.memory else "")
          = target.content := by
      by_cases hc : target.content = ""
      · simp [hc, hmc ▸ hc, hmc, hc ▸ hmc]
      · simp [hc]
    refine ⟨?_, ?_, ?_, ?_, ?_⟩
    · simp only [forgetByQuery, hres, hchain]
    · simp only [forgetByQuery, hres, hchain, hstate, deleteMemory, hst]
    · intro hlen; simp [limitText, hlen]
    · intro hlen; simp [limitText, Nat.not_lt.mpr hlen]
    · intro hnd
      obtain ⟨a, ha, hai⟩ := search_id_mem_rows env st t query 5 hst target hmem
      exact length_filter_ne_of_mem t.rows target.id hnd ⟨a, ha, hai⟩

/-- Witness for C1: on a two-row store the nearest row (`rowA`) is
forgotten, the report carries its (short, hence untruncated) content, and
only `rowB` survives. -/
theorem forgetByQuery_spec_witness :
    (forgetByQuery envW stW "q").1 = (true, "Forgot: \"contentA\"")
    ∧ (forgetByQuery envW stW "q").2.1 = ⟨some ⟨2, [rowB]⟩⟩ := by
  have h := (forgetByQuery_spec envW stW "q").2
    ⟨"a", "contentA", "contentA", 1⟩ [⟨"b", "contentB", "contentB", -40⟩]
    ⟨2, [rowA, rowB]⟩ (by decide) rfl
  exact ⟨h.1.trans (by decide), h.2.1.trans (by decide)⟩

/-! ## C5: `updateProfile` -/

/-- Profile type `UserProfile` from the source. -/
structure UserProfile where
  static : List String
  dynamic : List String
  lastUpdated : String
  deriving Repr, DecidableEq

/-- Reading the profile file: a missing or unparsable file (`none`)
degrades to the empty profile, exactly as the `try/catch` around
`readFile`/`JSON.parse` does. -/
def readProfile : Option UserProfile → UserProfile
  | some p => p
  | none => ⟨[], [], ""⟩

/-- Method `updateProfile(staticFacts?, dynamicFacts?)`: load the profile, append
the static facts not already present (membership snapshot taken once, via
the `Set` built from the loaded list), replace the dynamic list by the
first 20 supplied entries when given, stamp `lastUpdated`, and return the
profile that is then written back to the file in full — the write happens
unconditionally, so the returned value is always persisted. -/
def updateProfile (file : Option UserProfile)
    (staticFacts dynamicFacts : Option (List String)) (now : String) :
    UserProfile :=
  let profile := readProfile file
  let p1 := match staticFacts with
    | some fs =>
      { profile with
        static := profile.static
          ++ fs.filter (fun f => !(profile.static.contains f)) }
    | none => profile
  let p2 := match dynamicFacts with
    | some ds => { p1 with dynamic := ds.take 20 }
    | none => p1
  { p2 with lastUpdated := now }

/-- C5: `updateProfile` appends exactly the supplied static facts that are
absent (exact string equality) from the stored list, preserving their
order; a supplied dynamic list fully replaces the stored one, truncated to
its first 20 entries; `lastUpdated` is stamped and the whole profile is
the written result even when no argument changes anything; and the
two-call example yields stable facts `["fact A", "fact B"]` with no
duplicate. -/
theorem updateProfile_spec (file : Option UserProfile)
    (staticFacts dynamicFacts : List String) (now : String) :
    (updateProfile file (some staticFacts) (some dynamicFacts) now
      = ⟨(readProfile file).static
           ++ staticFacts.filter (fun f => !((readProfile file).static.contains f)),
         dynamicFacts.take 20, now⟩)
    ∧ (updateProfile file (some staticFacts) none now
      = ⟨(readProfile file).static
           ++ staticFacts.filter (fun f => !((readProfile file).static.contains f)),
         (readProfile file).dynamic, now⟩)
    ∧ (updateProfile file none (some dynamicFacts) now
      = ⟨(readProfile file).static, dynamicFacts.take 20, now⟩)
    ∧ (updateProfile file none none now
      = ⟨(readProfile file).static, (readProfile file).dynamic, now⟩)
    ∧ (updateProfile
        (some (updateProfile none (some ["fact A"]) none now))
        (some ["fact A", "fact B"]) none now).static
      = ["fact A", "fact B"] := by
  refine ⟨rfl, rfl, rfl, rfl, ?_⟩
  simp [updateProfile, readProfile]

/-! ## C8: escaping of ids in delete filters

The store's filter parser is an external collaborator; per the spec it
receives a query text and must see a single equality of the `id` column
against one string literal. `lexDq` models the standard backslash-escape
lexing of a double-quoted literal that the source's `\"`/`\'` escaping
presupposes (each `\x` stands for the character `x`). -/

/-- Lex a double-quoted string body with backslash escapes: returns the
denoted character sequence and the input remaining after the closing
quote, or `none` when the literal is unterminated. -/
def lexDq : List Char → Option (List Char × List Char)
  | [] => none
  | c :: cs =>
    if c = dq then some ([], cs)
    else if c = bs then
      match cs with
      | [] => none
      | d :: ds => (lexDq ds).map (fun p => (d :: p.1, p.2))
    else (lexDq cs).map (fun p => (c :: p.1, p.2))

/-- Parse a filter expression of the shape `id = "<literal>"` with nothing
trailing; returns the id the filter selects, or `none` when the text does
not have that structure. -/
def parseDeleteFilter (s : String) : Option String :=
  match s.data with
  | 'i' :: 'd' :: ' ' :: '=' :: ' ' :: c :: rest =>
    if c = dq then
      match lexDq rest with
      | some (content, []) => some (String.mk content)
      | _ => none
    else none
  | _ => none

/-- Character-level check that every single or double quote in a list is
immediately preceded by a backslash (`prev` is the previous character). -/
def qbAux : Char → List Char → Bool
  | _, [] => true
  | prev, c :: cs => (!(c == dq || c == sq) || prev == bs) && qbAux c cs

/-- Every quote character of the list is immediately preceded by a
backslash (so none is bare). -/
def quotesBackslashed : List Char → Bool
  | [] => true
  | c :: cs => !(c == dq || c == sq) && qbAux c cs

/-- After sanitizing, every quote is preceded by a backslash, whatever
character precedes the sanitized text. -/
theorem qbAux_sanitized (s : List Char) :
    ∀ prev, qbAux prev (escSq (escDq s)) = true := by
  induction s with
  | nil => intro prev; rfl
  | cons c cs ih =>
    intro prev
    have hbd : (bs == dq) = false := by decide
    have hbs' : (bs == sq) = false := by decide
    have hbb : (bs == bs) = true := by decide
    by_cases hdq : c = dq
    · subst hdq
      have hds : ¬ dq = sq := by decide
      simp [escDq, escSq, qbAux, hds, hbd, hbs', hbb, ih]
    · by_cases hsq : c = sq
      · subst hsq
        have hsd : ¬ sq = dq := by decide
        simp [escDq, escSq, qbAux, hsd, hbd, hbs', hbb, ih]
      · have h1 : (c == dq) = false := by simpa using hdq
        have h2 : (c == sq) = false := by simpa using hsq
        simp [escDq, escSq, qbAux, hdq, hsq, h1, h2, ih]

/-- The sanitized text never exposes a bare quote. -/
theorem quotesBackslashed_sanitized (s : List Char) :
    quotesBackslashed (escSq (escDq s)) = true := by
  cases s with
  | nil => rfl
  | cons c cs =>
    have hbsq : ¬ bs = sq := by decide
    by_cases hdq : c = dq
    · subst hdq
      have hds : ¬ dq = sq := by decide
      simp only [escDq, escSq, if_pos rfl, if_neg hds, if_neg hbsq]
      simp [quotesBackslashed, qbAux, qbAux_sanitized, bs, dq, sq]
    · by_cases hsq : c = sq
      · subst hsq
        have hsd : ¬ sq = dq := by decide
        simp only [escDq, escSq, if_neg hsd, if_pos rfl]
        simp [quotesBackslashed, qbAux, qbAux_sanitized, bs, dq, sq]
      · have h1 : (c == dq) = false := by simpa using hdq
        have h2 : (c == sq) = false := by simpa using hsq
        simp only [escDq, escSq, if_neg hdq, if_neg hsq]
        simp [quotesBackslashed, h1, h2, qbAux_sanitized]

/-- For backslash-free input the sanitized literal lexes back to exactly
the input, consuming the closing quote and nothing more. -/
theorem lexDq_sanitized (s : List Char) (hbs : bs ∉ s) :
    lexDq (escSq (escDq s) ++ [dq]) = some (s, []) := by
  induction s with
  | nil => rfl
  | cons c cs ih =>
    have hc : ¬ c = bs := fun h => hbs (h ▸ List.mem_cons_self c cs)
    have hcs : bs ∉ cs := fun h => hbs (List.mem_cons_of_mem c h)
    have hnd : ¬ bs = dq := by decide
    have hbsq : ¬ bs = sq := by decide
    by_cases hdq : c = dq
    · subst hdq
      have hds : ¬ dq = sq := by decide
      simp only [escDq, escSq, if_pos rfl, if_neg hds, if_neg hbsq,
        List.cons_append]
      rw [lexDq.eq_def]
      simp [hnd, ih hcs]
    · by_cases hsq : c = sq
      · subst hsq
        have hsd : ¬ sq = dq := by decide
        simp only [escDq, escSq, if_neg hsd, if_pos rfl, List.cons_append]
        rw [lexDq.eq_def]
        simp [hnd, ih hcs]
      · simp only [escDq, escSq, if_neg hdq, if_neg hsq, List.cons_append]
        rw [lexDq.eq_def]
        simp [hdq, hc, ih hcs]

/-- C8 (amended): the delete-filter expression built by `deleteMemory`,
`ensureTable` and the `customId` branch of `addMemory` carries every quote
character of the id escaped (immediately preceded by a backslash), and for
every id free of backslashes the expression parses as a single equality
selecting exactly that id. (Ids containing a backslash can still break the
expression's structure — see the counterexample.) -/
theorem sanitizeId_escapes (id : String) :
    quotesBackslashed (sanitizeId id).data = true
    ∧ (bs ∉ id.data → parseDeleteFilter (deleteFilterExpr id) = some id) := by
  constructor
  · exact quotesBackslashed_sanitized id.data
  · intro hbs
    have hdata : (deleteFilterExpr id).data
        = 'i' :: 'd' :: ' ' :: '=' :: ' ' :: dq
            :: (escSq (escDq id.data) ++ [dq]) := rfl
    unfold parseDeleteFilter
    rw [hdata]
    simp [lexDq_sanitized id.data hbs]

/-- Witness for C8 (amended claim) on the backslash-free id `a"b`. -/
theorem sanitizeId_escapes_witness :
    quotesBackslashed (sanitizeId (String.mk ['a', dq, 'b'])).data = true
    ∧ parseDeleteFilter (deleteFilterExpr (String.mk ['a', dq, 'b']))
        = some (String.mk ['a', dq, 'b']) :=
  ⟨(sanitizeId_escapes (String.mk ['a', dq, 'b'])).1,
   (sanitizeId_escapes (String.mk ['a', dq, 'b'])).2 (by decide)⟩

/-- Counterexample to C8 as stated: the id consisting of a backslash
followed by a double quote contains a quote character, yet its sanitized
filter expression no longer has the structure of a single id-equality —
the escaped-escape `\\` closes the literal early and a stray quote
trails, so the parse fails instead of selecting the id. -/
theorem sanitizeId_counterexample :
    (String.mk [bs, dq]).data.contains dq = true
    ∧ parseDeleteFilter (deleteFilterExpr (String.mk [bs, dq])) = none := by
  constructor
  · decide
  · decide

end LocalMemory
